import Mathlib

/-!
Verification of the torrentai search-orchestration pipeline.

This file gives a shallow embedding of the pipeline's pure logic:
  * the shared data model (`models.rs`),
  * the LLM response parsers (`llm_service.rs`:
    `parse_json_response`, `parse_evaluation_response`),
  * deduplication, confidence filtering and relevance ranking
    (`smart_search.rs`: `deduplicate_results`, `search`),
  * the fail-fast multi-source join (`smart_search.rs`: `search_all_sources`),
  * the auto-download decision (`main.rs`, SmartSearch branch),
together with theorems settling the specified properties.

Modelling conventions:
  * `f32`/`f64` scores are modelled as exact rationals plus an explicit NaN
    (`F32`); the ranking code performs no arithmetic on scores, only
    comparisons, so exact rationals are a faithful abstraction and the
    `f64 as f32` cast is the identity.
  * Rust `Result` values that can also panic are modelled by `PResult`
    (`panicked` = the function panics, `error` = it returns `Err`).
  * `serde_json` texts are modelled by a `Json` value type and an executable
    recursive-descent parser over `List Char` (Rust byte indices of `{`, `}`
    coincide with character indices for these one-byte delimiters).
    JSON numbers record whether their literal had a fraction/exponent part,
    mirroring serde_json's integer/float distinction; `\uXXXX` escapes in
    the surrogate range are rejected (surrogate pairs are not modelled).
  * `Vec::sort_by` is a stable sort; it is modelled by stable insertion
    sort, with a panicking comparator (`partial_cmp(..).unwrap()` on NaN)
    propagated through `Option`.
-/

namespace TorrentAI

/-- Model of an `f32` score: an exact rational value, or NaN. -/
inductive F32 where
  | nan
  | val (q : ℚ)
deriving DecidableEq

/-- Model of `PartialOrd::partial_cmp` on `f32`: `None` iff either side is NaN. -/
def F32.pcmp : F32 → F32 → Option Ordering
  | .val a, .val b => some (compare a b)
  | _, _ => none

/-- Rust `a >= b` on `f32`: false whenever either side is NaN. -/
def F32.fge : F32 → F32 → Bool
  | .val a, .val b => decide (b ≤ a)
  | _, _ => false

/-- Structure `TorrentResult` (pirate_bay_scraper.rs); counts as `Nat`. -/
structure TorrentResult where
  title : String
  magnet_link : String
  size : Option String
  seeders : Option Nat
  leechers : Option Nat
  uploaded : Option String
deriving DecidableEq

/-- Structure `EvaluatedResult` (models.rs). -/
structure EvaluatedResult where
  torrent : TorrentResult
  relevance_score : F32
  confidence : F32
  match_reasons : List String
  warnings : List String
  quality_score : F32
  completeness_score : F32
deriving DecidableEq

/-- Enum `ContentType` (models.rs), externally tagged serde enum,
`rename_all = "snake_case"` with `TVShow` renamed to `tv_show`. -/
inductive ContentType where
  | Movie
  | TVShow
  | Music
  | Software
  | Book
  | Game
  | Other (label : String)
deriving DecidableEq

/-- Structure `TvDetails` (models.rs); `u8` fields as `Nat`. -/
structure TvDetails where
  season : Option Nat
  episode : Option Nat
  episode_range : Option (Nat × Nat)
  complete_season : Bool
  complete_series : Bool
deriving DecidableEq

/-- Structure `SearchIntent` (models.rs); `u16` year as `Nat`. -/
structure SearchIntent where
  content_type : ContentType
  title : String
  year : Option Nat
  tv_details : Option TvDetails
  quality_preferences : List String
  language : Option String
  additional_context : List String
deriving DecidableEq

/-- Outcome of a Rust function returning `Result` that may also panic. -/
inductive PResult (α : Type) where
  | panicked
  | error
  | ok (a : α)
deriving DecidableEq

/-! ### JSON values (serde_json `Value`) -/

/-- A JSON value.  `num intRepr q`: `intRepr` is true when the literal had
no fraction and no exponent part (serde_json parses such literals as
`i64`/`u64`, others as `f64`). -/
inductive Json where
  | null
  | bool (b : Bool)
  | num (intRepr : Bool) (q : ℚ)
  | str (s : String)
  | arr (elems : List Json)
  | obj (members : List (String × Json))

/-- Indexing `value[key]` on a serde_json `Value`: for an object, the value stored
under `key` (duplicate keys in the source text: the last one wins, as in
serde_json's map); `Null` for a missing key or a non-object. -/
def Json.index (j : Json) (key : String) : Json :=
  match j with
  | .obj ms => (ms.reverse.lookup key).getD .null
  | _ => .null

/-- Accessor `Value::as_f64`: any JSON number (integer or float representation). -/
def Json.as_f64 : Json → Option ℚ
  | .num _ q => some q
  | _ => none

/-- Accessor `Value::as_str`. -/
def Json.as_str : Json → Option String
  | .str s => some s
  | _ => none

/-- Accessor `Value::as_array`. -/
def Json.as_array : Json → Option (List Json)
  | .arr l => some l
  | _ => none

/-! ### JSON text parser (serde_json `from_str`) -/

/-- JSON whitespace. -/
def isWs (c : Char) : Bool :=
  c = ' ' || c = '\t' || c = '\n' || c = '\r'

/-- Skip leading JSON whitespace. -/
def skipWs : List Char → List Char
  | [] => []
  | c :: cs => if isWs c then skipWs cs else c :: cs

/-- Value of a hex digit. -/
def hexVal (c : Char) : Option Nat :=
  if '0' ≤ c ∧ c ≤ '9' then some (c.toNat - 48)
  else if 'a' ≤ c ∧ c ≤ 'f' then some (c.toNat - 87)
  else if 'A' ≤ c ∧ c ≤ 'F' then some (c.toNat - 55)
  else none

/-- Single-character escapes. -/
def escChar : Char → Option Char
  | '\"' => some '\"'
  | '\\' => some '\\'
  | '/' => some '/'
  | 'b' => some (Char.ofNat 8)
  | 'f' => some (Char.ofNat 12)
  | 'n' => some '\n'
  | 'r' => some '\r'
  | 't' => some '\t'
  | _ => none

/-- Parse the body of a JSON string after the opening quote; returns the
content and the remaining input after the closing quote.  Unescaped
control characters and lone `\uXXXX` surrogates are rejected. -/
def parseStrRest : List Char → Option (List Char × List Char)
  | [] => none
  | '\"' :: cs => some ([], cs)
  | '\\' :: 'u' :: a :: b :: c :: d :: cs =>
    match hexVal a, hexVal b, hexVal c, hexVal d with
    | some ha, some hb, some hc, some hd =>
      let code := ((ha * 16 + hb) * 16 + hc) * 16 + hd
      if 0xD800 ≤ code ∧ code < 0xE000 then none
      else (parseStrRest cs).map (fun p => (Char.ofNat code :: p.1, p.2))
    | _, _, _, _ => none
  | '\\' :: e :: cs =>
    match escChar e with
    | some ec => (parseStrRest cs).map (fun p => (ec :: p.1, p.2))
    | none => none
  | c :: cs =>
    if c.toNat < 32 then none
    else (parseStrRest cs).map (fun p => (c :: p.1, p.2))

/-- Decimal digits to a number. -/
def digitsToNat : List Char → Nat → Nat
  | [], acc => acc
  | c :: cs, acc => digitsToNat cs (acc * 10 + (c.toNat - 48))

/-- Split a maximal run of decimal digits off the front. -/
def takeDigits : List Char → List Char × List Char
  | [] => ([], [])
  | c :: cs =>
    if c.isDigit then
      let p := takeDigits cs
      (c :: p.1, p.2)
    else ([], c :: cs)

/-- Fraction part: `.digits`, or nothing.  Returns (value, present, rest). -/
def parseFrac : List Char → Option (ℚ × Bool × List Char)
  | '.' :: r =>
    let p := takeDigits r
    if p.1.isEmpty then none
    else some ((digitsToNat p.1 0 : ℚ) / (10 : ℚ) ^ p.1.length, true, p.2)
  | s => some (0, false, s)

/-- Exponent digits with sign. -/
def parseExpNum (negE : Bool) (r : List Char) : Option (ℤ × List Char) :=
  let p := takeDigits r
  if p.1.isEmpty then none
  else some ((if negE then -(digitsToNat p.1 0 : ℤ) else (digitsToNat p.1 0 : ℤ)), p.2)

/-- Exponent part: `[eE][+-]?digits`, or nothing.  Returns (exp, present, rest). -/
def parseExpPart : List Char → Option (ℤ × Bool × List Char)
  | 'e' :: '+' :: r => (parseExpNum false r).map (fun p => (p.1, true, p.2))
  | 'e' :: '-' :: r => (parseExpNum true r).map (fun p => (p.1, true, p.2))
  | 'e' :: r => (parseExpNum false r).map (fun p => (p.1, true, p.2))
  | 'E' :: '+' :: r => (parseExpNum false r).map (fun p => (p.1, true, p.2))
  | 'E' :: '-' :: r => (parseExpNum true r).map (fun p => (p.1, true, p.2))
  | 'E' :: r => (parseExpNum false r).map (fun p => (p.1, true, p.2))
  | s => some (0, false, s)

/-- Parse a JSON number (leading zeros rejected, as in serde_json). -/
def parseNumber (s : List Char) : Option (Json × List Char) :=
  let sp : Bool × List Char := match s with
    | '-' :: r => (true, r)
    | _ => (false, s)
  let dp := takeDigits sp.2
  if dp.1.isEmpty then none
  else if 1 < dp.1.length ∧ dp.1.head? = some '0' then none
  else
    match parseFrac dp.2 with
    | none => none
    | some (frac, hasFrac, s3) =>
      match parseExpPart s3 with
      | none => none
      | some (ex, hasExp, s4) =>
        let intQ : ℚ := (digitsToNat dp.1 0 : ℕ)
        let withFrac : ℚ := if hasFrac then intQ + frac else intQ
        let mag : ℚ := if hasExp then withFrac * (10 : ℚ) ^ ex else withFrac
        some (.num (!hasFrac && !hasExp) (if sp.1 then -mag else mag), s4)

mutual

/-- Parse one JSON value (fuelled recursive descent). -/
def parseVal : Nat → List Char → Option (Json × List Char)
  | 0, _ => none
  | fuel + 1, s =>
    match skipWs s with
    | 'n' :: 'u' :: 'l' :: 'l' :: r => some (.null, r)
    | 't' :: 'r' :: 'u' :: 'e' :: r => some (.bool true, r)
    | 'f' :: 'a' :: 'l' :: 's' :: 'e' :: r => some (.bool false, r)
    | '\"' :: r => (parseStrRest r).map (fun p => (.str (String.mk p.1), p.2))
    | '[' :: r => parseArrRest fuel r
    | '\x7b' :: r => parseObjRest fuel r
    | s2 => parseNumber s2

/-- After `[`: either `]` or the first element. -/
def parseArrRest : Nat → List Char → Option (Json × List Char)
  | 0, _ => none
  | fuel + 1, s =>
    match skipWs s with
    | ']' :: r => some (.arr [], r)
    | s2 =>
      match parseVal fuel s2 with
      | none => none
      | some (v, r) =>
        match parseArrTail fuel r with
        | none => none
        | some (vs, r2) => some (.arr (v :: vs), r2)

/-- After an array element: `, value ...` or `]`. -/
def parseArrTail : Nat → List Char → Option (List Json × List Char)
  | 0, _ => none
  | fuel + 1, s =>
    match skipWs s with
    | ',' :: r =>
      match parseVal fuel r with
      | none => none
      | some (v, r2) =>
        match parseArrTail fuel r2 with
        | none => none
        | some (vs, r3) => some (v :: vs, r3)
    | ']' :: r => some ([], r)
    | _ => none

/-- After `{`: either `}` or the first member. -/
def parseObjRest : Nat → List Char → Option (Json × List Char)
  | 0, _ => none
  | fuel + 1, s =>
    match skipWs s with
    | '\x7d' :: r => some (.obj [], r)
    | '\"' :: r =>
      match parseStrRest r with
      | none => none
      | some (k, r2) =>
        match parseMemberVal fuel r2 with
        | none => none
        | some (v, r3) =>
          match parseObjTail fuel r3 with
          | none => none
          | some (ms, r4) => some (.obj ((String.mk k, v) :: ms), r4)
    | _ => none

/-- Colon then a value, after a member key. -/
def parseMemberVal : Nat → List Char → Option (Json × List Char)
  | 0, _ => none
  | fuel + 1, s =>
    match skipWs s with
    | ':' :: r => parseVal fuel r
    | _ => none

/-- After an object member: `, "key": value ...` or `}`. -/
def parseObjTail : Nat → List Char → Option (List (String × Json) × List Char)
  | 0, _ => none
  | fuel + 1, s =>
    match skipWs s with
    | ',' :: r =>
      match skipWs r with
      | '\"' :: r2 =>
        match parseStrRest r2 with
        | none => none
        | some (k, r3) =>
          match parseMemberVal fuel r3 with
          | none => none
          | some (v, r4) =>
            match parseObjTail fuel r4 with
            | none => none
            | some (ms, r5) => some ((String.mk k, v) :: ms, r5)
      | _ => none
    | '\x7d' :: r => some ([], r)
    | _ => none

end

/-- Model of `serde_json::from_str` into a `Value`: parse one value, allowing
surrounding whitespace and nothing else. -/
def parseJsonText (s : List Char) : Option Json :=
  match parseVal (2 * s.length + 2) s with
  | some (v, rest) => if (skipWs rest).isEmpty then some v else none
  | none => none

/-! ### Deserializing `SearchIntent` (serde derive semantics) -/

/-- Unit variants of `ContentType` by their snake_case serde name. -/
def ctUnit : String → Option ContentType
  | "movie" => some .Movie
  | "tv_show" => some .TVShow
  | "music" => some .Music
  | "software" => some .Software
  | "book" => some .Book
  | "game" => some .Game
  | _ => none

/-- Externally tagged enum: a unit variant from a plain string (or a
one-entry map with a null value); the newtype variant `Other` from
`{"other": <string>}`. -/
def contentTypeFromJson : Json → Option ContentType
  | .str s => ctUnit s
  | .obj [(k, v)] =>
    if k = "other" then
      match v with
      | .str s => some (.Other s)
      | _ => none
    else
      match ctUnit k with
      | some ct => match v with | .null => some ct | _ => none
      | none => none
  | _ => none

/-- Deserialize `u8`: an integer-representation number in range. -/
def u8FromJson : Json → Option Nat
  | .num true q => if 0 ≤ q.num ∧ q.den = 1 ∧ q.num ≤ 255 then some q.num.toNat else none
  | _ => none

/-- Deserialize `u16`: an integer-representation number in range. -/
def u16FromJson : Json → Option Nat
  | .num true q => if 0 ≤ q.num ∧ q.den = 1 ∧ q.num ≤ 65535 then some q.num.toNat else none
  | _ => none

/-- Deserialize `String`. -/
def stringFromJson : Json → Option String
  | .str s => some s
  | _ => none

/-- Deserialize `bool`. -/
def boolFromJson : Json → Option Bool
  | .bool b => some b
  | _ => none

/-- Deserialize `Vec<String>`: every element must be a string. -/
def stringListFromJson : Json → Option (List String)
  | .arr l => l.mapM stringFromJson
  | _ => none

/-- Deserialize `(u8, u8)`: an array of exactly two `u8`s. -/
def u8PairFromJson : Json → Option (Nat × Nat)
  | .arr [a, b] =>
    match u8FromJson a, u8FromJson b with
    | some x, some y => some (x, y)
    | _, _ => none
  | _ => none

/-- Deserialize `Option<T>`: `null` becomes `None`, otherwise deserialize `T`. -/
def optFromJson {α : Type} (f : Json → Option α) : Json → Option (Option α)
  | .null => some none
  | j => (f j).map some

/-- Field slots collected for `TvDetails` (serde derive: duplicate known
fields are an error, unknown fields are ignored). -/
structure TvBuilder where
  season : Option Json := none
  episode : Option Json := none
  episode_range : Option Json := none
  complete_season : Option Json := none
  complete_series : Option Json := none

/-- Collect `TvDetails` members. -/
def tvCollect : List (String × Json) → TvBuilder → Option TvBuilder
  | [], b => some b
  | (k, v) :: ms, b =>
    if k = "season" then
      if b.season.isSome then none else tvCollect ms { b with season := some v }
    else if k = "episode" then
      if b.episode.isSome then none else tvCollect ms { b with episode := some v }
    else if k = "episode_range" then
      if b.episode_range.isSome then none else tvCollect ms { b with episode_range := some v }
    else if k = "complete_season" then
      if b.complete_season.isSome then none else tvCollect ms { b with complete_season := some v }
    else if k = "complete_series" then
      if b.complete_series.isSome then none else tvCollect ms { b with complete_series := some v }
    else tvCollect ms b

/-- Deserialize `TvDetails` from a JSON value: `Option` fields default to `None` when
absent, the two `bool` fields are required. -/
def tvDetailsFromJson : Json → Option TvDetails
  | .obj ms =>
    match tvCollect ms {} with
    | none => none
    | some b =>
      match (match b.season with | none => some none | some j => optFromJson u8FromJson j),
            (match b.episode with | none => some none | some j => optFromJson u8FromJson j),
            (match b.episode_range with | none => some none | some j => optFromJson u8PairFromJson j),
            b.complete_season.bind boolFromJson,
            b.complete_series.bind boolFromJson with
      | some se, some ep, some er, some cs, some cr =>
        some { season := se, episode := ep, episode_range := er,
               complete_season := cs, complete_series := cr }
      | _, _, _, _, _ => none
  | _ => none

/-- Field slots collected for `SearchIntent`. -/
structure IntentBuilder where
  content_type : Option Json := none
  title : Option Json := none
  year : Option Json := none
  tv_details : Option Json := none
  quality_preferences : Option Json := none
  language : Option Json := none
  additional_context : Option Json := none

/-- Collect `SearchIntent` members. -/
def intentCollect : List (String × Json) → IntentBuilder → Option IntentBuilder
  | [], b => some b
  | (k, v) :: ms, b =>
    if k = "content_type" then
      if b.content_type.isSome then none else intentCollect ms { b with content_type := some v }
    else if k = "title" then
      if b.title.isSome then none else intentCollect ms { b with title := some v }
    else if k = "year" then
      if b.year.isSome then none else intentCollect ms { b with year := some v }
    else if k = "tv_details" then
      if b.tv_details.isSome then none else intentCollect ms { b with tv_details := some v }
    else if k = "quality_preferences" then
      if b.quality_preferences.isSome then none
      else intentCollect ms { b with quality_preferences := some v }
    else if k = "language" then
      if b.language.isSome then none else intentCollect ms { b with language := some v }
    else if k = "additional_context" then
      if b.additional_context.isSome then none
      else intentCollect ms { b with additional_context := some v }
    else intentCollect ms b

/-- Deserialize `SearchIntent` from a JSON value: `content_type`, `title`,
`quality_preferences` and `additional_context` are required; the
`Option` fields default to `None` when absent. -/
def intentFromJson : Json → Option SearchIntent
  | .obj ms =>
    match intentCollect ms {} with
    | none => none
    | some b =>
      match b.content_type.bind contentTypeFromJson,
            b.title.bind stringFromJson,
            (match b.year with | none => some none | some j => optFromJson u16FromJson j),
            (match b.tv_details with | none => some none | some j => optFromJson tvDetailsFromJson j),
            b.quality_preferences.bind stringListFromJson,
            (match b.language with | none => some none | some j => optFromJson stringFromJson j),
            b.additional_context.bind stringListFromJson with
      | some ct, some ti, some yr, some tv, some qp, some lg, some ac =>
        some { content_type := ct, title := ti, year := yr, tv_details := tv,
               quality_preferences := qp, language := lg, additional_context := ac }
      | _, _, _, _, _, _, _ => none
  | _ => none

/-- Model of `serde_json::from_str::<SearchIntent>`. -/
def deserializeIntent (s : List Char) : Option SearchIntent :=
  (parseJsonText s).bind intentFromJson

/-! ### `LlmService::parse_json_response` / `parse_evaluation_response` -/

/-- Index of the first occurrence of a character (`str::find`). -/
def firstIdxOf (c : Char) : List Char → Option Nat
  | [] => none
  | a :: as => if a = c then some 0 else (firstIdxOf c as).map (· + 1)

/-- Index of the last occurrence of a character (`str::rfind`). -/
def lastIdxOf (c : Char) : List Char → Option Nat
  | [] => none
  | a :: as =>
    match lastIdxOf c as with
    | some i => some (i + 1)
    | none => if a = c then some 0 else none

/-- The slicing step shared by `parse_json_response` (`{`/`}`) and
`parse_evaluation_response` (`[`/`]`): `json_start` is the index of the
first opener (`find`, defaulting to 0), `json_end` one past the index of
the last closer (`rfind`, defaulting to `len`), and the result is the
span `&response[json_start..json_end]`.  Rust's slice indexing panics
when `start > end`, modelled by `none`. -/
def spanSlice (opener closer : Char) (response : List Char) : Option (List Char) :=
  let json_start := (firstIdxOf opener response).getD 0
  let json_end := ((lastIdxOf closer response).map (· + 1)).getD response.length
  if json_start ≤ json_end ∧ json_end ≤ response.length then
    some ((response.drop json_start).take (json_end - json_start))
  else none

/-- Model of `LlmService::parse_json_response`, parametrized by the serde
deserializer of the target type: slice from the first `{` to one past
the last `}` and deserialize that span. -/
def parse_json_response {T : Type} (deser : List Char → Option T)
    (response : List Char) : PResult T :=
  match spanSlice '\x7b' '\x7d' response with
  | none => .panicked
  | some s =>
    match deser s with
    | some it => .ok it
    | none => .error

/-- One `EvaluatedResult` built from a response-array element: each score
is the field's numeric value or `0.0`; each list is the string elements
of the field's array value, or `[]`. -/
def mkEvaluated (torrent : TorrentResult) (eval : Json) : EvaluatedResult :=
  { torrent := torrent
    relevance_score := .val (((eval.index "relevance_score").as_f64).getD 0)
    confidence := .val (((eval.index "confidence").as_f64).getD 0)
    match_reasons :=
      (((eval.index "match_reasons").as_array).map (fun arr => arr.filterMap Json.as_str)).getD []
    warnings :=
      (((eval.index "warnings").as_array).map (fun arr => arr.filterMap Json.as_str)).getD []
    quality_score := .val (((eval.index "quality_score").as_f64).getD 0)
    completeness_score := .val (((eval.index "completeness_score").as_f64).getD 0) }

/-- The `for (i, eval) in evaluations.iter().enumerate()` loop: pair the
`i`-th array element with `results.get(i)`, skipping elements with no
corresponding record. -/
def buildEvaluated (results : List TorrentResult) : Nat → List Json → List EvaluatedResult
  | _, [] => []
  | i, e :: rest =>
    match results[i]? with
    | some t => mkEvaluated t e :: buildEvaluated results (i + 1) rest
    | none => buildEvaluated results (i + 1) rest

/-- Model of `LlmService::parse_evaluation_response`: slice from the first `[` to
one past the last `]`, parse as a JSON array
(`serde_json::from_str::<Vec<Value>>`), and build one `EvaluatedResult`
per element that has a corresponding input record. -/
def parse_evaluation_response (response : List Char) (results : List TorrentResult) :
    PResult (List EvaluatedResult) :=
  match spanSlice '[' ']' response with
  | none => .panicked
  | some s =>
    match parseJsonText s with
    | some (.arr evals) => .ok (buildEvaluated results 0 evals)
    | _ => .error

/-- The evaluation array extracted by `parse_evaluation_response`, when the
call reaches a successfully parsed top-level array. -/
def evalArrayOf (response : List Char) : Option (List Json) :=
  match spanSlice '[' ']' response with
  | none => none
  | some s =>
    match parseJsonText s with
    | some (.arr evals) => some evals
    | _ => none

/-! ### `SmartSearcher` (smart_search.rs) -/

/-- Helper loop of `deduplicate_results`: `HashSet::insert` returns true only for a
not-yet-seen `magnet_link`, so `filter` keeps the first record of each. -/
def dedupGo (seen : List String) : List TorrentResult → List TorrentResult
  | [] => []
  | r :: rest =>
    if r.magnet_link ∈ seen then dedupGo seen rest
    else r :: dedupGo (r.magnet_link :: seen) rest

/-- Model of `SmartSearcher::deduplicate_results`. -/
def deduplicate_results (results : List TorrentResult) : List TorrentResult :=
  dedupGo [] results

/-- The sort comparator `|a, b| b.relevance_score.partial_cmp(&a.relevance_score)`;
the `.unwrap()` panic on `None` is propagated by the caller. -/
def cmpEval (a b : EvaluatedResult) : Option Ordering :=
  F32.pcmp b.relevance_score a.relevance_score

/-- Stable insertion of one element by `cmpEval`; `none` = the comparator
panicked (some compared pair had a NaN relevance score). -/
def orderedInsertP (a : EvaluatedResult) : List EvaluatedResult → Option (List EvaluatedResult)
  | [] => some [a]
  | b :: l =>
    match cmpEval a b with
    | none => none
    | some .gt =>
      match orderedInsertP a l with
      | none => none
      | some out => some (b :: out)
    | some _ => some (a :: b :: l)

/-- Model of `Vec::sort_by` with the relevance comparator (a stable sort), as a
stable insertion sort; `none` = the sort panicked. -/
def sortEvalP : List EvaluatedResult → Option (List EvaluatedResult)
  | [] => some []
  | b :: l => (sortEvalP l).bind (orderedInsertP b)

/-- Steps 6 of `SmartSearcher::search`: filter by
`confidence >= min_confidence`, then sort descending by relevance. -/
def rank (evaluated : List EvaluatedResult) (min_confidence : F32) :
    Option (List EvaluatedResult) :=
  sortEvalP (evaluated.filter (fun r => F32.fge r.confidence min_confidence))

/-- Model of `SmartSearcher::search_all_sources`: `tokio::try_join!` on the two
scrapers, then concatenate.  The adapters' outcomes are parameters (their
network internals are external collaborators). -/
def search_all_sources {ε : Type} (tpb_results yts_results : Except ε (List TorrentResult)) :
    Except ε (List TorrentResult) :=
  match tpb_results with
  | .error e => .error e
  | .ok a =>
    match yts_results with
    | .error e => .error e
    | .ok b => .ok (a ++ b)

/-! ### The decision gate (main.rs, SmartSearch branch) -/

/-- The abstract outcome of the auto-download decision. -/
inductive Action where
  | NoAction
  | Download (identity : String)
  | SuggestManual (identity : String)
deriving DecidableEq

/-- The decision logic of `main`'s SmartSearch branch: nothing for an
empty result list; with `auto_download` set, download the top result when
`relevance_score >= 0.9`, otherwise print the manual-download suggestion;
without `auto_download`, no action is taken. -/
def DecisionGate.decide (results : List EvaluatedResult) (auto_download : Bool) : Action :=
  match results with
  | [] => .NoAction
  | best :: _ =>
    if auto_download then
      if F32.fge best.relevance_score (.val (9 / 10)) then .Download best.torrent.magnet_link
      else .SuggestManual best.torrent.magnet_link
    else .NoAction

/-! ### Concrete inputs used by witnesses and counterexamples -/

/-- A concrete `TorrentResult` with only title and identity. -/
def tRec (t m : String) : TorrentResult := ⟨t, m, none, none, none, none⟩

/-- A concrete `EvaluatedResult` with given relevance and confidence. -/
def eRec (t m : String) (rel conf : F32) : EvaluatedResult :=
  ⟨tRec t m, rel, conf, [], [], F32.val 0, F32.val 0⟩

/-! ### Auxiliary predicates used by the theorems -/

/-- A score is a valid value in `[0, 1]`. -/
def In01 : F32 → Prop
  | .nan => False
  | .val q => 0 ≤ q ∧ q ≤ 1

/-- Non-increasing relevance: both scores are valid and the left one is
at least the right one. -/
def relGE (a b : EvaluatedResult) : Prop :=
  ∃ qa qb, a.relevance_score = F32.val qa ∧ b.relevance_score = F32.val qb ∧ qb ≤ qa

/-- Boolean test for a record having relevance score exactly `q`. -/
def relEq (q : ℚ) (r : EvaluatedResult) : Bool :=
  decide (r.relevance_score = F32.val q)

/-! ## Theorems -/

/-! ### Deduplication (C7) -/

theorem dedupGo_sublist (l : List TorrentResult) :
    ∀ seen, (dedupGo seen l).Sublist l := by
  induction l with
  | nil => intro seen; simp [dedupGo]
  | cons r rest ih =>
    intro seen
    unfold dedupGo
    split
    · exact (ih seen).cons r
    · exact (ih (r.magnet_link :: seen)).cons₂ r

theorem dedupGo_not_seen (l : List TorrentResult) :
    ∀ seen, ∀ r ∈ dedupGo seen l, r.magnet_link ∉ seen := by
  induction l with
  | nil => intro seen r hr; simp [dedupGo] at hr
  | cons a rest ih =>
    intro seen r hr
    by_cases hs : a.magnet_link ∈ seen
    · rw [dedupGo, if_pos hs] at hr
      exact ih seen r hr
    · rw [dedupGo, if_neg hs] at hr
      rw [List.mem_cons] at hr
      rcases hr with rfl | hr
      · exact hs
      · intro hmem
        exact ih (a.magnet_link :: seen) r hr (List.mem_cons_of_mem _ hmem)

theorem dedupGo_nodup (l : List TorrentResult) :
    ∀ seen, ((dedupGo seen l).map (fun r => r.magnet_link)).Nodup := by
  induction l with
  | nil => intro seen; simp [dedupGo]
  | cons a rest ih =>
    intro seen
    unfold dedupGo
    split
    · exact ih seen
    · rw [List.map_cons, List.nodup_cons]
      refine ⟨?_, ih (a.magnet_link :: seen)⟩
      intro hmem
      rcases List.mem_map.mp hmem with ⟨r, hr, hrm⟩
      exact dedupGo_not_seen rest _ r hr (hrm ▸ List.mem_cons_self _ _)

theorem dedupGo_filter (l : List TorrentResult) (m : String) :
    ∀ seen, (dedupGo seen l).filter (fun r => decide (r.magnet_link = m)) =
      if m ∈ seen then [] else (l.find? (fun r => decide (r.magnet_link = m))).toList := by
  induction l with
  | nil => intro seen; simp [dedupGo]
  | cons a rest ih =>
    intro seen
    unfold dedupGo
    by_cases hseen : a.magnet_link ∈ seen
    · rw [if_pos hseen, ih seen]
      by_cases hm : m ∈ seen
      · rw [if_pos hm, if_pos hm]
      · rw [if_neg hm, if_neg hm, List.find?_cons_of_neg]
        simp only [decide_eq_true_eq]
        intro heq
        exact hm (heq ▸ hseen)
    · rw [if_neg hseen]
      by_cases ham : a.magnet_link = m
      · subst ham
        rw [List.filter_cons_of_pos (by simp), ih (a.magnet_link :: seen),
          if_pos (List.mem_cons_self _ _), if_neg hseen,
          List.find?_cons_of_pos _ (by simp)]
        rfl
      · rw [List.filter_cons_of_neg (by simpa using ham), ih (a.magnet_link :: seen)]
        have hiff : (m ∈ a.magnet_link :: seen) ↔ m ∈ seen := by
          simp only [List.mem_cons]
          constructor
          · rintro (h | h)
            · exact absurd h.symm ham
            · exact h
          · exact Or.inr
        by_cases hm : m ∈ seen
        · rw [if_pos (hiff.mpr hm), if_pos hm]
        · rw [if_neg (fun h => hm (hiff.mp h)), if_neg hm, List.find?_cons_of_neg]
          simpa using ham

/-- C7: deduplication keeps exactly the first-occurring record (by input
order) for each distinct `magnet_link` identity, preserving order; the
output has at most one record per identity. -/
theorem C7_dedup_first_occurrence (l : List TorrentResult) :
    (deduplicate_results l).Sublist l
  ∧ ((deduplicate_results l).map (fun r => r.magnet_link)).Nodup
  ∧ ∀ m : String, (deduplicate_results l).filter (fun r => decide (r.magnet_link = m)) =
      (l.find? (fun r => decide (r.magnet_link = m))).toList := by
  refine ⟨dedupGo_sublist l [], dedupGo_nodup l [], fun m => ?_⟩
  rw [deduplicate_results, dedupGo_filter l m []]
  simp

/-! ### Fail-fast aggregation (C9) -/

/-- C9: if either source adapter fails, the whole `search_all_sources`
call fails (no partial list is returned); if both succeed, the result is
the concatenation of their records, ThePirateBay first, unweighted. -/
theorem C9_fail_fast {ε : Type} (tpb yts : Except ε (List TorrentResult)) :
    ((∃ e, tpb = .error e) ∨ (∃ e, yts = .error e) →
       ∃ e, search_all_sources tpb yts = .error e)
  ∧ (∀ a b, tpb = .ok a → yts = .ok b →
       search_all_sources tpb yts = .ok (a ++ b)) := by
  constructor
  · rintro (⟨e, rfl⟩ | ⟨e, rfl⟩)
    · exact ⟨e, rfl⟩
    · cases tpb with
      | error e2 => exact ⟨e2, rfl⟩
      | ok a => exact ⟨e, rfl⟩
  · rintro a b rfl rfl
    rfl

theorem C9_witness :
    (∃ e, search_all_sources (Except.error "network error")
        (Except.ok [⟨"t", "magnet:t", none, none, none, none⟩]) = .error e)
  ∧ search_all_sources (Except.ok ([⟨"a", "magnet:a", none, none, none, none⟩] : List TorrentResult))
      ((Except.ok [⟨"b", "magnet:b", none, none, none, none⟩] : Except String (List TorrentResult))) =
      .ok [⟨"a", "magnet:a", none, none, none, none⟩, ⟨"b", "magnet:b", none, none, none, none⟩] :=
  ⟨(C9_fail_fast _ _).1 (.inl ⟨"network error", rfl⟩),
   (C9_fail_fast _ _).2 _ _ rfl rfl⟩

/-! ### The ranking sort panics on NaN (C1) -/

/-- C1: the claim says the sort must complete on NaN scores, placing NaN
last; the code instead panics.  On a two-element list whose first record
has a NaN `relevance_score` (both passing the confidence filter), the
sort's comparator unwraps `partial_cmp = None` and the whole `rank`
computation panics (`= none`), so no output — let alone one with NaN
sorted last — is produced. -/
theorem C1_rank_panics_on_nan :
    rank [⟨⟨"a", "magnet:a", none, none, none, none⟩, F32.nan, F32.val 1, [], [], F32.val 0, F32.val 0⟩,
          ⟨⟨"b", "magnet:b", none, none, none, none⟩, F32.val (1/2), F32.val 1, [], [], F32.val 0, F32.val 0⟩]
      (F32.val 0) = none := by decide

/-! ### `parse_json_response` can panic (C4) -/

/-- C4: the claim says extraction fails with a parse error (rather than
crashing) whenever no `{`/`}` pair exists.  But on a response whose first
`{` comes after its last `}`, the code's slice `&response[start..end]`
has `start > end` and panics instead of returning an error. -/
theorem C4_parse_json_response_panics :
    parse_json_response deserializeIntent (String.toList "\x7d x \x7b") = .panicked := by
  decide

/-! ### The decision gate (C5) -/

/-- C5 counterexample: with a non-empty ranked list and `auto_download`
not set, the code takes no action at all; the claim's promised
`SuggestManual(identity)` is not produced. -/
theorem C5_counterexample :
    DecisionGate.decide
        [⟨⟨"top", "magnet:top", none, none, none, none⟩, F32.val (92/100), F32.val 1, [], [],
          F32.val 0, F32.val 0⟩] false = .NoAction
  ∧ DecisionGate.decide
        [⟨⟨"top", "magnet:top", none, none, none, none⟩, F32.val (92/100), F32.val 1, [], [],
          F32.val 0, F32.val 0⟩] false ≠ .SuggestManual "magnet:top" := by
  decide

/-- C5 amended: `NoAction` on an empty list; with `auto_download` set,
`Download` of the top identity when its relevance is at least 0.9 and
`SuggestManual` of the top identity otherwise; with `auto_download` not
set, `NoAction` (no suggestion is made). -/
theorem C5_amended_decision (best : EvaluatedResult) (rest : List EvaluatedResult) (auto : Bool) :
    DecisionGate.decide [] auto = .NoAction
  ∧ DecisionGate.decide (best :: rest) false = .NoAction
  ∧ (F32.fge best.relevance_score (.val (9/10)) = true →
      DecisionGate.decide (best :: rest) true = .Download best.torrent.magnet_link)
  ∧ (F32.fge best.relevance_score (.val (9/10)) = false →
      DecisionGate.decide (best :: rest) true = .SuggestManual best.torrent.magnet_link) := by
  refine ⟨rfl, rfl, ?_, ?_⟩ <;> intro h <;> simp [DecisionGate.decide, h]

/-! ### Evaluation parsing (C2, C6, C10) -/

theorem parse_evaluation_of_evalArrayOf (response : List Char) (results : List TorrentResult)
    (evals : List Json) (h : evalArrayOf response = some evals) :
    parse_evaluation_response response results = .ok (buildEvaluated results 0 evals) := by
  rw [evalArrayOf] at h
  rw [parse_evaluation_response]
  cases hs : spanSlice '[' ']' response with
  | none => rw [hs] at h; simp at h
  | some s =>
    rw [hs] at h
    simp only at h ⊢
    cases hp : parseJsonText s with
    | none => rw [hp] at h; simp at h
    | some v =>
      rw [hp] at h
      cases v <;> simp_all

theorem buildEvaluated_eq_zip (results : List TorrentResult) (evals : List Json) :
    ∀ i : Nat, buildEvaluated results i evals =
      ((evals.zip (results.drop i)).map (fun p => mkEvaluated p.2 p.1)) := by
  induction evals with
  | nil => intro i; simp [buildEvaluated]
  | cons e rest ih =>
    intro i
    rw [buildEvaluated]
    cases hgt : results[i]? with
    | none =>
      have hlen : results.length ≤ i := List.getElem?_eq_none_iff.mp hgt
      rw [List.drop_eq_nil_of_le hlen, ih (i + 1),
        List.drop_eq_nil_of_le (Nat.le_succ_of_le hlen)]
      simp
    | some t =>
      have hi : i < results.length := by
        by_contra hge
        rw [List.getElem?_eq_none_iff.mpr (Nat.le_of_not_lt hge)] at hgt
        cases hgt
      have ht : results[i] = t := by
        rw [List.getElem?_eq_getElem hi] at hgt
        exact Option.some.inj hgt
      rw [List.drop_eq_getElem_cons hi, ih (i + 1), ht]
      simp

theorem buildEvaluated_length (results : List TorrentResult) (evals : List Json) :
    (buildEvaluated results 0 evals).length = min evals.length results.length := by
  rw [buildEvaluated_eq_zip results evals 0, List.drop_zero, List.length_map, List.length_zip]

/-- C6: for every record list and every response whose sliced span parses
as a JSON array, `parse_evaluation_response` succeeds and returns exactly
the zip of the array with the records: output position `i` wraps
`records[i]` and is scored from array element `i`; records beyond the
array length are omitted.  Within each element every missing or
malformed scoring field defaults to `0.0` and every missing or malformed
list field to `[]`. -/
theorem C6_evaluate_per_record (response : List Char) (results : List TorrentResult)
    (evals : List Json) (h : evalArrayOf response = some evals) :
    ∃ out, parse_evaluation_response response results = .ok out
      ∧ out = (evals.zip results).map (fun p => mkEvaluated p.2 p.1)
      ∧ out.length = min evals.length results.length
      ∧ (∀ i (h1 : i < evals.length) (h2 : i < results.length),
          out[i]? = some (mkEvaluated (results.get ⟨i, h2⟩) (evals.get ⟨i, h1⟩)))
      ∧ (∀ t e, (Json.as_f64 (Json.index e "relevance_score") = none →
            (mkEvaluated t e).relevance_score = F32.val 0)
          ∧ (Json.as_f64 (Json.index e "confidence") = none →
            (mkEvaluated t e).confidence = F32.val 0)
          ∧ (Json.as_f64 (Json.index e "quality_score") = none →
            (mkEvaluated t e).quality_score = F32.val 0)
          ∧ (Json.as_f64 (Json.index e "completeness_score") = none →
            (mkEvaluated t e).completeness_score = F32.val 0)
          ∧ (Json.as_array (Json.index e "match_reasons") = none →
            (mkEvaluated t e).match_reasons = [])
          ∧ (Json.as_array (Json.index e "warnings") = none →
            (mkEvaluated t e).warnings = [])) := by
  refine ⟨buildEvaluated results 0 evals, parse_evaluation_of_evalArrayOf _ _ _ h,
    ?_, buildEvaluated_length results evals, ?_, ?_⟩
  · rw [buildEvaluated_eq_zip results evals 0, List.drop_zero]
  · intro i h1 h2
    rw [buildEvaluated_eq_zip results evals 0, List.drop_zero]
    have hlen : i < ((evals.zip results).map (fun p => mkEvaluated p.2 p.1)).length := by
      rw [List.length_map, List.length_zip]
      exact lt_min h1 h2
    rw [List.getElem?_eq_getElem hlen]
    simp only [List.getElem_map, List.getElem_zip]
    rfl
  · intro t e
    refine ⟨?_, ?_, ?_, ?_, ?_, ?_⟩ <;> intro hnone <;> simp [mkEvaluated, hnone]

theorem C6_witness :
    ∃ out, parse_evaluation_response
        (String.toList "scores: [\x7b\"match_reasons\": [\"ok\"]\x7d, \x7b\x7d] end")
        [⟨"t1", "magnet:1", none, none, none, none⟩,
         ⟨"t2", "magnet:2", none, none, none, none⟩,
         ⟨"t3", "magnet:3", none, none, none, none⟩] = .ok out
      ∧ out.length = min 2 3 := by
  obtain ⟨out, h1, -, h3, -, -⟩ :=
    C6_evaluate_per_record
      (String.toList "scores: [\x7b\"match_reasons\": [\"ok\"]\x7d, \x7b\x7d] end")
      [⟨"t1", "magnet:1", none, none, none, none⟩,
       ⟨"t2", "magnet:2", none, none, none, none⟩,
       ⟨"t3", "magnet:3", none, none, none, none⟩]
      [Json.obj [("match_reasons", Json.arr [Json.str "ok"])], Json.obj []] (by rfl)
  exact ⟨out, h1, h3⟩

/-- C10: when the parsed evaluation array is longer than the record list
the surplus elements are ignored without error: the output length is
always `min` of the two lengths. -/
theorem C10_surplus_ignored (response : List Char) (results : List TorrentResult)
    (evals : List Json) (h : evalArrayOf response = some evals) :
    ∃ out, parse_evaluation_response response results = .ok out
      ∧ out.length = min evals.length results.length :=
  ⟨buildEvaluated results 0 evals, parse_evaluation_of_evalArrayOf _ _ _ h,
    buildEvaluated_length results evals⟩

theorem C10_witness :
    ∃ out, parse_evaluation_response (String.toList "[null, true, \"x\"]")
        [⟨"only", "magnet:only", none, none, none, none⟩] = .ok out
      ∧ out.length = min 3 1 :=
  C10_surplus_ignored (String.toList "[null, true, \"x\"]")
    [⟨"only", "magnet:only", none, none, none, none⟩]
    [Json.null, Json.bool true, Json.str "x"] (by rfl)

theorem in01_of_field (e : Json) (k : String)
    (hk : ∀ q : ℚ, Json.as_f64 (Json.index e k) = some q → 0 ≤ q ∧ q ≤ 1) :
    In01 (F32.val ((Json.as_f64 (Json.index e k)).getD 0)) := by
  cases hf : Json.as_f64 (Json.index e k) with
  | none => simp only [Option.getD_none, In01]; norm_num
  | some q => simpa [In01] using hk q hf

/-- C2 counterexample: the code does not clamp scores to `[0, 1]`; a
response whose `relevance_score` field is `2` yields an
`EvaluatedResult` with `relevance_score = 2`, outside `[0, 1]`. -/
theorem C2_counterexample :
    parse_evaluation_response (String.toList "[\x7b\"relevance_score\": 2\x7d]")
        [⟨"t", "magnet:t", none, none, none, none⟩] =
      .ok [⟨⟨"t", "magnet:t", none, none, none, none⟩, F32.val 2, F32.val 0, [], [],
            F32.val 0, F32.val 0⟩]
  ∧ ¬ In01 (F32.val 2) := by
  refine ⟨by decide, ?_⟩
  simp only [In01, not_and]
  intro _
  norm_num

/-- C2 amended: each produced score equals the corresponding numeric
field of the response (defaulting to `0.0` when missing or malformed) and
is passed through unclamped; hence all four scores of every produced
`EvaluatedResult` lie in `[0, 1]` provided every numeric score field of
the parsed response array lies in `[0, 1]`. -/
theorem C2_amended_scores_bounded (response : List Char) (results : List TorrentResult)
    (evals : List Json) (h : evalArrayOf response = some evals)
    (hb : ∀ e ∈ evals,
        ∀ k ∈ (["relevance_score", "confidence", "quality_score", "completeness_score"] :
            List String),
          ∀ q : ℚ, Json.as_f64 (Json.index e k) = some q → 0 ≤ q ∧ q ≤ 1) :
    ∃ out, parse_evaluation_response response results = .ok out
      ∧ ∀ r ∈ out, In01 r.relevance_score ∧ In01 r.confidence
          ∧ In01 r.quality_score ∧ In01 r.completeness_score := by
  refine ⟨buildEvaluated results 0 evals, parse_evaluation_of_evalArrayOf _ _ _ h, ?_⟩
  intro r hr
  rw [buildEvaluated_eq_zip results evals 0, List.drop_zero] at hr
  obtain ⟨⟨e, t⟩, hmem, rfl⟩ := List.mem_map.mp hr
  have he : e ∈ evals := (List.of_mem_zip hmem).1
  exact ⟨in01_of_field e _ (hb e he _ (by simp)),
         in01_of_field e _ (hb e he _ (by simp)),
         in01_of_field e _ (hb e he _ (by simp)),
         in01_of_field e _ (hb e he _ (by simp))⟩

theorem C2_witness :
    ∃ out, parse_evaluation_response (String.toList "[\x7b\x7d]")
        [⟨"w", "magnet:w", none, none, none, none⟩] = .ok out
      ∧ ∀ r ∈ out, In01 r.relevance_score ∧ In01 r.confidence
          ∧ In01 r.quality_score ∧ In01 r.completeness_score := by
  refine C2_amended_scores_bounded (String.toList "[\x7b\x7d]")
    [⟨"w", "magnet:w", none, none, none, none⟩] [Json.obj []] (by rfl) ?_
  intro e he k hk q hq
  rw [List.mem_singleton] at he
  subst he
  simp [Json.index, Json.as_f64] at hq

/-- C5 witness, including the spec's Scenario D: a top result with
relevance 0.92 and `auto_download` set is downloaded; one with relevance
0.5 triggers the manual suggestion. -/
theorem C5_witness :
    DecisionGate.decide
        [⟨⟨"d", "magnet:d", none, none, none, none⟩, F32.val (92/100), F32.val 1, [], [],
          F32.val 0, F32.val 0⟩] true = .Download "magnet:d"
  ∧ DecisionGate.decide
        [⟨⟨"s", "magnet:s", none, none, none, none⟩, F32.val (1/2), F32.val 1, [], [],
          F32.val 0, F32.val 0⟩] true = .SuggestManual "magnet:s" :=
  ⟨(C5_amended_decision
      ⟨⟨"d", "magnet:d", none, none, none, none⟩, F32.val (92/100), F32.val 1, [], [],
        F32.val 0, F32.val 0⟩ [] true).2.2.1 (by norm_num [F32.fge]),
   (C5_amended_decision
      ⟨⟨"s", "magnet:s", none, none, none, none⟩, F32.val (1/2), F32.val 1, [], [],
        F32.val 0, F32.val 0⟩ [] true).2.2.2 (by norm_num [F32.fge])⟩

/-! ### Ranking (C8) -/

theorem pcmp_some {x y : F32} {c : Ordering} (h : F32.pcmp x y = some c) :
    ∃ qx qy, x = F32.val qx ∧ y = F32.val qy ∧ compare qx qy = c := by
  cases x with
  | nan => cases y <;> simp [F32.pcmp] at h
  | val qx =>
    cases y with
    | nan => simp [F32.pcmp] at h
    | val qy => exact ⟨qx, qy, rfl, rfl, by simpa [F32.pcmp] using h⟩

theorem relGE_trans {a b c : EvaluatedResult} (h1 : relGE a b) (h2 : relGE b c) : relGE a c := by
  obtain ⟨qa, qb, ha, hb, hba⟩ := h1
  obtain ⟨qb2, qc, hb2, hc, hcb⟩ := h2
  rw [hb] at hb2
  injection hb2 with hq
  exact ⟨qa, qc, ha, hc, le_trans (hq ▸ hcb) hba⟩

theorem orderedInsertP_some (a : EvaluatedResult) (qa : ℚ) (ha : a.relevance_score = F32.val qa) :
    ∀ l, (∀ b ∈ l, ∃ qb, b.relevance_score = F32.val qb) →
      ∃ out, orderedInsertP a l = some out := by
  intro l
  induction l with
  | nil => intro _; exact ⟨[a], rfl⟩
  | cons b t ih =>
    intro hl
    obtain ⟨qb, hb⟩ := hl b (List.mem_cons_self b t)
    have hc : cmpEval a b = some (compare qb qa) := by
      simp [cmpEval, F32.pcmp, ha, hb]
    obtain ⟨out', hout'⟩ := ih (fun x hx => hl x (List.mem_cons_of_mem b hx))
    simp only [orderedInsertP, hc]
    cases hcmp : compare qb qa with
    | lt => exact ⟨a :: b :: t, rfl⟩
    | eq => exact ⟨a :: b :: t, rfl⟩
    | gt => exact ⟨b :: out', by rw [hout']⟩

theorem orderedInsertP_perm (a : EvaluatedResult) :
    ∀ l out, orderedInsertP a l = some out → out.Perm (a :: l) := by
  intro l
  induction l with
  | nil =>
    intro out h
    simp only [orderedInsertP] at h
    injection h with h
    subst h
    exact List.Perm.refl _
  | cons b t ih =>
    intro out h
    simp only [orderedInsertP] at h
    cases hc : cmpEval a b with
    | none => rw [hc] at h; cases h
    | some c =>
      rw [hc] at h
      cases c with
      | lt => injection h with h; subst h; exact List.Perm.refl _
      | eq => injection h with h; subst h; exact List.Perm.refl _
      | gt =>
        cases hrec : orderedInsertP a t with
        | none => rw [hrec] at h; cases h
        | some out' =>
          rw [hrec] at h
          injection h with h
          subst h
          exact ((ih out' hrec).cons b).trans (List.Perm.swap a b t)

theorem orderedInsertP_pairwise (a : EvaluatedResult) :
    ∀ l out, List.Pairwise relGE l → orderedInsertP a l = some out →
      List.Pairwise relGE out := by
  intro l
  induction l with
  | nil =>
    intro out _ h
    simp only [orderedInsertP] at h
    injection h with h
    subst h
    simp
  | cons b t ih =>
    intro out hp h
    simp only [orderedInsertP] at h
    cases hc : cmpEval a b with
    | none => rw [hc] at h; cases h
    | some c =>
      rw [hc] at h
      obtain ⟨qb, qa, hbv, hav, hcmp⟩ := pcmp_some hc
      rw [List.pairwise_cons] at hp
      cases c with
      | gt =>
        cases hrec : orderedInsertP a t with
        | none => rw [hrec] at h; cases h
        | some out' =>
          rw [hrec] at h
          injection h with h
          subst h
          rw [List.pairwise_cons]
          refine ⟨?_, ih out' hp.2 hrec⟩
          intro x hx
          rcases List.mem_cons.mp ((orderedInsertP_perm a t out' hrec).subset hx) with rfl | hxt
          · exact ⟨qb, qa, hbv, hav, le_of_lt (compare_gt_iff_gt.mp hcmp)⟩
          · exact hp.1 x hxt
      | lt =>
        injection h with h
        subst h
        have hab : relGE a b := ⟨qa, qb, hav, hbv, le_of_lt (compare_lt_iff_lt.mp hcmp)⟩
        rw [List.pairwise_cons]
        refine ⟨?_, List.pairwise_cons.mpr hp⟩
        intro x hx
        rcases List.mem_cons.mp hx with rfl | hxt
        · exact hab
        · exact relGE_trans hab (hp.1 x hxt)
      | eq =>
        injection h with h
        subst h
        have hab : relGE a b := ⟨qa, qb, hav, hbv, le_of_eq (compare_eq_iff_eq.mp hcmp)⟩
        rw [List.pairwise_cons]
        refine ⟨?_, List.pairwise_cons.mpr hp⟩
        intro x hx
        rcases List.mem_cons.mp hx with rfl | hxt
        · exact hab
        · exact relGE_trans hab (hp.1 x hxt)

theorem orderedInsertP_filter (a : EvaluatedResult) (q : ℚ) :
    ∀ l out, orderedInsertP a l = some out →
      out.filter (relEq q) =
        if relEq q a then a :: l.filter (relEq q) else l.filter (relEq q) := by
  intro l
  induction l with
  | nil =>
    intro out h
    simp only [orderedInsertP] at h
    injection h with h
    subst h
    cases hqa : relEq q a <;> simp [List.filter_cons, hqa]
  | cons b t ih =>
    intro out h
    simp only [orderedInsertP] at h
    cases hc : cmpEval a b with
    | none => rw [hc] at h; cases h
    | some c =>
      rw [hc] at h
      obtain ⟨qb, qa, hbv, hav, hcmp⟩ := pcmp_some hc
      cases c with
      | lt => injection h with h; subst h; cases hqa : relEq q a <;> simp [List.filter_cons, hqa]
      | eq => injection h with h; subst h; cases hqa : relEq q a <;> simp [List.filter_cons, hqa]
      | gt =>
        cases hrec : orderedInsertP a t with
        | none => rw [hrec] at h; cases h
        | some out' =>
          rw [hrec] at h
          injection h with h
          subst h
          cases hqa : relEq q a with
          | true =>
            have haq : a.relevance_score = F32.val q := by
              simpa [relEq] using hqa
            have hqaq : qa = q := by
              rw [haq] at hav
              injection hav with hv
              exact hv.symm
            have hbq : relEq q b = false := by
              have hgt : qa < qb := compare_gt_iff_gt.mp hcmp
              simp only [relEq, hbv, decide_eq_false_iff_not]
              intro hbad
              injection hbad with hbad
              rw [hqaq, hbad] at hgt
              exact lt_irrefl q hgt
            simp [List.filter_cons, hbq, ih out' hrec, hqa]
          | false =>
            simp [List.filter_cons, ih out' hrec, hqa]

theorem sortEvalP_perm : ∀ l out, sortEvalP l = some out → out.Perm l := by
  intro l
  induction l with
  | nil =>
    intro out h
    simp only [sortEvalP] at h
    injection h with h
    subst h
    exact List.Perm.refl _
  | cons a t ih =>
    intro out h
    simp only [sortEvalP] at h
    cases hs : sortEvalP t with
    | none => rw [hs] at h; cases h
    | some m =>
      rw [hs] at h
      exact (orderedInsertP_perm a m out h).trans ((ih m hs).cons a)

theorem sortEvalP_some : ∀ l : List EvaluatedResult,
    (∀ b ∈ l, ∃ q, b.relevance_score = F32.val q) → ∃ out, sortEvalP l = some out := by
  intro l
  induction l with
  | nil => exact fun _ => ⟨[], rfl⟩
  | cons a t ih =>
    intro hl
    obtain ⟨m, hm⟩ := ih (fun x hx => hl x (List.mem_cons_of_mem a hx))
    obtain ⟨qa, ha⟩ := hl a (List.mem_cons_self a t)
    obtain ⟨out, hout⟩ :=
      orderedInsertP_some a qa ha m
        (fun b hb => hl b (List.mem_cons_of_mem a ((sortEvalP_perm t m hm).subset hb)))
    refine ⟨out, ?_⟩
    simp only [sortEvalP]
    rw [hm]
    exact hout

theorem sortEvalP_pairwise : ∀ l out, sortEvalP l = some out → List.Pairwise relGE out := by
  intro l
  induction l with
  | nil =>
    intro out h
    simp only [sortEvalP] at h
    injection h with h
    subst h
    simp
  | cons a t ih =>
    intro out h
    simp only [sortEvalP] at h
    cases hs : sortEvalP t with
    | none => rw [hs] at h; cases h
    | some m =>
      rw [hs] at h
      exact orderedInsertP_pairwise a m out (ih m hs) h

theorem sortEvalP_filter (q : ℚ) : ∀ l out, sortEvalP l = some out →
    out.filter (relEq q) = l.filter (relEq q) := by
  intro l
  induction l with
  | nil =>
    intro out h
    simp only [sortEvalP] at h
    injection h with h
    subst h
    rfl
  | cons a t ih =>
    intro out h
    simp only [sortEvalP] at h
    cases hs : sortEvalP t with
    | none => rw [hs] at h; cases h
    | some m =>
      rw [hs] at h
      rw [orderedInsertP_filter a q m out h, List.filter_cons, ih m hs]

/-- C8 counterexample: on a list containing a NaN relevance score (both
records passing the confidence filter), `rank` panics instead of
producing the filtered, sorted output the claim promises for every
input. -/
theorem C8_counterexample :
    rank [⟨⟨"x", "magnet:x", none, none, none, none⟩, F32.val 1, F32.val 1, [], [],
           F32.val 0, F32.val 0⟩,
          ⟨⟨"y", "magnet:y", none, none, none, none⟩, F32.nan, F32.val 1, [], [],
           F32.val 0, F32.val 0⟩]
      (F32.val 0) = none := by decide

/-- C8 amended: provided every record passing the confidence filter has a
valid (non-NaN) relevance score, `rank`'s output contains exactly the
input elements with `confidence >= min_confidence` (the boundary is
kept), sorted non-increasing by relevance, and records with equal
relevance keep their input order (stable sort). -/
theorem C8_amended_rank (evaluated : List EvaluatedResult) (minc : F32)
    (h : ∀ r ∈ evaluated, F32.fge r.confidence minc = true →
        ∃ q, r.relevance_score = F32.val q) :
    ∃ ranked, rank evaluated minc = some ranked
      ∧ ranked.Perm (evaluated.filter (fun r => F32.fge r.confidence minc))
      ∧ List.Pairwise relGE ranked
      ∧ ∀ q : ℚ, ranked.filter (relEq q) =
          (evaluated.filter (fun r => F32.fge r.confidence minc)).filter (relEq q) := by
  have hf : ∀ r ∈ evaluated.filter (fun r => F32.fge r.confidence minc),
      ∃ q, r.relevance_score = F32.val q := by
    intro r hr
    rw [List.mem_filter] at hr
    exact h r hr.1 hr.2
  obtain ⟨ranked, hrk⟩ := sortEvalP_some _ hf
  exact ⟨ranked, hrk, sortEvalP_perm _ _ hrk, sortEvalP_pairwise _ _ hrk,
    fun q => sortEvalP_filter q _ _ hrk⟩

theorem C8_witness :
    ∃ ranked,
      rank [eRec "w1" "magnet:w1" (F32.val 1) (F32.val 1),
            eRec "w2" "magnet:w2" (F32.val 2) (F32.val 0)]
        (F32.val 0) = some ranked := by
  have hhyp : ∀ r ∈ [eRec "w1" "magnet:w1" (F32.val 1) (F32.val 1),
      eRec "w2" "magnet:w2" (F32.val 2) (F32.val 0)],
      F32.fge r.confidence (F32.val 0) = true → ∃ q, r.relevance_score = F32.val q := by
    intro r hr _
    simp only [List.mem_cons, List.not_mem_nil, or_false] at hr
    rcases hr with rfl | rfl
    · exact ⟨1, rfl⟩
    · exact ⟨2, rfl⟩
  obtain ⟨ranked, h1, -, -, -⟩ :=
    C8_amended_rank
      [eRec "w1" "magnet:w1" (F32.val 1) (F32.val 1),
       eRec "w2" "magnet:w2" (F32.val 2) (F32.val 0)]
      (F32.val 0) hhyp
  exact ⟨ranked, h1⟩

/-! ### Intent extraction robustness (C3) -/

theorem firstIdxOf_append_cons (c : Char) (l2 : List Char) :
    ∀ l1 : List Char, c ∉ l1 → firstIdxOf c (l1 ++ c :: l2) = some l1.length := by
  intro l1
  induction l1 with
  | nil => intro _; simp [firstIdxOf]
  | cons a t ih =>
    intro h
    rw [List.mem_cons, not_or] at h
    rw [List.cons_append, firstIdxOf, if_neg (fun hac => h.1 hac.symm), ih h.2]
    simp

theorem lastIdxOf_eq_none (c : Char) : ∀ l : List Char, c ∉ l → lastIdxOf c l = none := by
  intro l
  induction l with
  | nil => intro _; rfl
  | cons a t ih =>
    intro h
    rw [List.mem_cons, not_or] at h
    rw [lastIdxOf, ih h.2]
    show (if a = c then some 0 else none) = none
    exact if_neg (fun hac => h.1 hac.symm)

theorem lastIdxOf_append_cons (c : Char) (suf : List Char) (h2 : c ∉ suf) :
    ∀ l1 : List Char, lastIdxOf c (l1 ++ c :: suf) = some l1.length := by
  intro l1
  induction l1 with
  | nil =>
    rw [List.nil_append, lastIdxOf, lastIdxOf_eq_none c suf h2]
    show (if c = c then some 0 else none) = some 0
    exact if_pos rfl
  | cons a t ih =>
    rw [List.cons_append, lastIdxOf, ih]
    simp

/-- With no opener in the prefix and no closer in the suffix, the slicing
step recovers exactly the embedded `opener ... closer` span. -/
theorem spanSlice_append (o c : Char) (pre mid suf : List Char)
    (hpre : o ∉ pre) (hsuf : c ∉ suf) :
    spanSlice o c (pre ++ (o :: (mid ++ [c])) ++ suf) = some (o :: (mid ++ [c])) := by
  have hshape1 : pre ++ (o :: (mid ++ [c])) ++ suf = pre ++ o :: ((mid ++ [c]) ++ suf) := by
    simp
  have hshape2 : pre ++ (o :: (mid ++ [c])) ++ suf = (pre ++ o :: mid) ++ c :: suf := by
    simp
  have h1 : firstIdxOf o (pre ++ (o :: (mid ++ [c])) ++ suf) = some pre.length := by
    rw [hshape1]
    exact firstIdxOf_append_cons o _ pre hpre
  have h2 : lastIdxOf c (pre ++ (o :: (mid ++ [c])) ++ suf) = some (pre ++ o :: mid).length := by
    rw [hshape2]
    exact lastIdxOf_append_cons c suf hsuf (pre ++ o :: mid)
  rw [spanSlice]
  simp only [h1, h2, Option.getD_some, Option.map_some']
  have hcond : pre.length ≤ (pre ++ o :: mid).length + 1
      ∧ (pre ++ o :: mid).length + 1 ≤ (pre ++ (o :: (mid ++ [c])) ++ suf).length := by
    simp only [List.length_append, List.length_cons]
    omega
  rw [if_pos hcond]
  have hdrop : (pre ++ (o :: (mid ++ [c])) ++ suf).drop pre.length = (o :: (mid ++ [c])) ++ suf := by
    rw [List.append_assoc]
    exact List.drop_left pre _
  have hsub : (pre ++ o :: mid).length + 1 - pre.length = (o :: (mid ++ [c])).length := by
    simp only [List.length_append, List.length_cons, List.length_nil]
    omega
  rw [hdrop, hsub, List.take_left]

/-- C3 counterexample: surrounding prose is not harmless.  With a prefix
that itself contains a `{`, the slice taken from the first `{` to the
last `}` is not the embedded JSON object and extraction fails, even
though the embedded span alone deserializes to the intent. -/
theorem C3_counterexample :
    deserializeIntent (String.toList "\x7b\"content_type\":\"movie\",\"title\":\"A\",\"quality_preferences\":[],\"additional_context\":[]\x7d")
      = some ⟨ContentType.Movie, "A", none, none, [], none, []⟩
  ∧ parse_json_response deserializeIntent
      (String.toList "pro\x7be: \x7b\"content_type\":\"movie\",\"title\":\"A\",\"quality_preferences\":[],\"additional_context\":[]\x7d")
      ≠ PResult.ok ⟨ContentType.Movie, "A", none, none, [], none, []⟩ := by
  constructor <;> decide

/-- C3 amended: for every valid `SearchIntent` JSON object span
`{ ... }`, every prefix containing no `{` and every suffix containing no
`}`, extraction from the concatenation recovers exactly the encoded
intent. -/
theorem C3_amended_extract (pre mid suf : List Char) (it : SearchIntent)
    (hpre : '\x7b' ∉ pre) (hsuf : '\x7d' ∉ suf)
    (hparse : deserializeIntent ('\x7b' :: (mid ++ ['\x7d'])) = some it) :
    parse_json_response deserializeIntent
      (pre ++ ('\x7b' :: (mid ++ ['\x7d'])) ++ suf) = .ok it := by
  rw [parse_json_response, spanSlice_append '\x7b' '\x7d' pre mid suf hpre hsuf]
  simp only
  rw [hparse]

theorem C3_witness :
    parse_json_response deserializeIntent
      (String.toList "Answer: " ++
        ('\x7b' :: (String.toList "\"content_type\":\"movie\",\"title\":\"A\",\"quality_preferences\":[],\"additional_context\":[]" ++ ['\x7d'])) ++
        String.toList " done.") = .ok ⟨ContentType.Movie, "A", none, none, [], none, []⟩ :=
  C3_amended_extract (String.toList "Answer: ")
    (String.toList "\"content_type\":\"movie\",\"title\":\"A\",\"quality_preferences\":[],\"additional_context\":[]")
    (String.toList " done.")
    ⟨ContentType.Movie, "A", none, none, [], none, []⟩
    (by decide) (by decide) (by decide)

end TorrentAI
